import Mathlib

/-!
Verification of the streaming readers for statistical-release files
(`ons.py` and `imf/imf.py`).

The development shallowly embeds:
 - the header/metadata/data partitioner of `ons.CSV._iter` (ons.py),
   together with the `readline` facade of `ons.CSV`;
 - the encoding detection loop of `imf.detect_encoding` /
   `detect_buffer_encoding` (imf.py), over an abstract incremental
   detector (the external `chardet` collaborator);
 - the filename-based encoding inference of `imf.WEO.infer_encoding`;
 - the resource-ownership behaviour of `imf.WEO.__del__` and the
   teardown methods of `ons.CSV`;
 - the `BytesIO` construction route of `imf.WEO.__init__`.

Python strings are modelled as Lean `String` (physical lines, field
values) or `List Char` (filename stems, where the regex is examined
character by character).  Fallible Python code is modelled with
`Except`.
-/

/-- Python exceptions raised by the modelled code paths. -/
inductive PyErr where
  /-- `IndexError`: raised by `row[0]` in `ons.CSV._iter` (ons.py line 103)
      when the csv reader yields an empty row for a blank physical line. -/
  | indexError
  /-- `TypeError`: raised by CPython when `map` is called with a single
      argument, as happens in `imf.WEO.__init__` (imf.py lines 244 and
      250-252) where the closing parenthesis of the lambda encloses the
      intended iterable argument. -/
  | typeErrorMapOneArg
deriving DecidableEq, Repr

/-!
### Agency B partitioner: `ons.CSV._iter`

The csv row structure is supplied by the external quote-aware parser
(`csv.reader`): per logical row it yields the ordered field values and,
via `reader.line_num`, the number of physical lines the row spanned.
A logical row is therefore embedded as its parsed fields together with
the physical lines it occupies; the concatenation of the `lines`
components of a stream of rows is exactly the underlying physical line
stream (the `line_stream` copy produced by `itertools.tee`).
-/

/-- One logical csv row: the parsed field values and the physical lines
    the row spanned (as reported via `reader.line_num` deltas in
    `ons.CSV._iter`).  A blank physical line parses to `fields = []`. -/
structure Row where
  fields : List String
  lines : List String
deriving DecidableEq, Repr

/-- Embeds `ons.CSV.CODE` (ons.py line 74): the header label. -/
def CODE : String := "CDID"

/-- Embeds `ons.CSV.FIELDS` (ons.py line 75): the recognised metadata labels. -/
def FIELDS : List String :=
  ["Title", "PreUnit", "Unit", "Release Date", "Next release", "Important Notes"]

/-- Physical lines of a stream of logical rows, in order. -/
def allLines : List Row → List String
  | [] => []
  | r :: rs => r.lines ++ allLines rs

/-- Embeds the classification loop of `ons.CSV._iter` (ons.py lines 93-127).

    The loop walks logical rows from the `reader_stream` copy.  For each
    row it reads `label = row[0]` (raising `IndexError` on an empty row),
    and moves `count` physical lines off the `line_stream` copy (`ls`
    here) into `header_lines` if the label equals `CODE`, into
    `metadata_lines` if the label is in `FIELDS`, and otherwise breaks,
    leaving the remainder of `line_stream` as the data.  The result
    triple is `(header_lines, metadata_lines, data lines)`; the code
    then exposes `header_lines ++ metadata_lines` as the metadata view
    and `header_lines ++ data` as the primary view. -/
def iterAux : List Row → List String → Except PyErr (List String × List String × List String)
  | [], ls => .ok ([], [], ls)
  | r :: rs, ls =>
    match r.fields with
    | [] => .error .indexError
    | label :: _ =>
      if label = CODE then
        match iterAux rs (ls.drop r.lines.length) with
        | .error e => .error e
        | .ok (h, m, d) => .ok (ls.take r.lines.length ++ h, m, d)
      else if label ∈ FIELDS then
        match iterAux rs (ls.drop r.lines.length) with
        | .error e => .error e
        | .ok (h, m, d) => .ok (h, ls.take r.lines.length ++ m, d)
      else
        .ok ([], [], ls)

/-- Embeds `ons.CSV._iter` applied to a buffer: `itertools.tee` gives the
    classifier and the line stream identical copies of the underlying
    lines, so the second argument of `iterAux` starts as exactly the
    physical lines of the parsed rows. -/
def iterCSV (rows : List Row) : Except PyErr (List String × List String × List String) :=
  iterAux rows (allLines rows)

/-- The primary view assembled by `ons.CSV._iter` (ons.py lines 123-127):
    header lines followed by the data lines. -/
def primaryOf (t : List String × List String × List String) : List String :=
  t.1 ++ t.2.2

/-- The metadata view assembled by `ons.CSV._iter` (ons.py line 120):
    header lines followed by the metadata lines (joined into a string and
    re-exposed as a `StringIO`; since each element is one physical line
    the list of lines is an equivalent model). -/
def metadataOf (t : List String × List String × List String) : List String :=
  t.1 ++ t.2.1

/-- Embeds `ons.CSV.readline` (ons.py lines 146-150): `next` on the
    remaining buffer, returning the empty string on `StopIteration`. -/
def readlineFn : List String → String
  | [] => ""
  | x :: _ => x

/-- Result of the k-th `readline` call on a buffer: each call pops one
    line, so the k-th call sees the buffer with k lines dropped. -/
def readlineAt (buffer : List String) (k : Nat) : String :=
  readlineFn (buffer.drop k)

/-- Specification-side classification: a row whose first field is the
    header label. -/
def isHeaderRow (r : Row) : Bool :=
  decide (r.fields.head? = some CODE)

/-- Specification-side classification: a row whose first field is a
    recognised metadata label. -/
def isMetadataRow (r : Row) : Bool :=
  match r.fields.head? with
  | some label => decide (label ∈ FIELDS)
  | none => false

/-- A row the classifier keeps reading past: header or metadata. -/
def isPreambleRow (r : Row) : Bool :=
  isHeaderRow r || isMetadataRow r

/-- Modelled from the spec (a PartitionResult clause of the data model):
    the header lines of a stream are the physical lines of the header
    rows of the classified preamble, in original order. -/
def headerLinesSpec (rows : List Row) : List String :=
  allLines ((rows.takeWhile isPreambleRow).filter isHeaderRow)

/-- Modelled from the spec: the metadata lines of a stream are the
    physical lines of the metadata rows of the classified preamble, in
    original order. -/
def metadataLinesSpec (rows : List Row) : List String :=
  allLines ((rows.takeWhile isPreambleRow).filter isMetadataRow)

/-- Modelled from the spec: the data lines are the physical lines of the
    remainder of the stream, from the first non-preamble row on. -/
def dataLinesSpec (rows : List Row) : List String :=
  allLines (rows.dropWhile isPreambleRow)

/-!
### Agency A: incremental content detection (`imf.detect_encoding`)

The statistical detector (`chardet.UniversalDetector`) is the external
collaborator of section 6 of the design: incremental `feed`, a `done`
flag, `close`, and a best-guess `result`.  It is embedded as an abstract
state machine over a state type `σ`, byte-chunk type `β` and result
type `ρ`.
-/

/-- Abstract incremental encoding detector (the `chardet` collaborator
    used by `detect_buffer_encoding`, imf.py lines 84-120). -/
structure Detector (σ β ρ : Type) where
  feed : σ → β → σ
  done : σ → Bool
  close : σ → σ
  result : σ → ρ

/-- Feeds a list of chunks to the detector in order. -/
def feedAll {σ β ρ : Type} (D : Detector σ β ρ) : σ → List β → σ
  | s, [] => s
  | s, b :: l => feedAll D (D.feed s b) l

/-- Embeds the `for i, line in enumerate(buffer, start=1)` loop of
    `detect_buffer_encoding` (imf.py lines 91-106).  Arguments after the
    budget parameters: current detector state, the `done` variable (the
    status captured after the most recent feed, initially `False`), the
    enumerate counter `i`, and the unread remainder of the buffer.
    Returns the final detector state, the final `done` variable, and the
    number of lines fed.  The branch order matches the code: continue
    unconditionally when `max_lines == -1`; break when
    `i >= max_lines > 0`; break when `i >= min_lines and done`. -/
def detectLoop {σ β ρ : Type} (D : Detector σ β ρ) (minL maxL : Int) :
    σ → Bool → Nat → List β → σ × Bool × Nat
  | s, d, _, [] => (s, d, 0)
  | s, _, i, b :: rest =>
    let s1 := D.feed s b
    let d1 := D.done s1
    if maxL = -1 then
      let t := detectLoop D minL maxL s1 d1 (i + 1) rest
      (t.1, t.2.1, t.2.2 + 1)
    else if maxL ≤ (i : Int) ∧ 0 < maxL then
      (s1, d1, 1)
    else if minL ≤ (i : Int) ∧ d1 = true then
      (s1, d1, 1)
    else
      let t := detectLoop D minL maxL s1 d1 (i + 1) rest
      (t.1, t.2.1, t.2.2 + 1)

/-- Output of the detection pass: the result returned to the caller, the
    low-confidence warning flag (`warnings.warn` at imf.py line 118),
    and the number of lines consumed from the buffer. -/
structure DetectOutput (ρ : Type) where
  result : ρ
  warned : Bool
  fed : Nat
deriving DecidableEq, Repr

/-- Embeds `detect_buffer_encoding` (imf.py lines 86-120): run the loop
    from a fresh detector state with `done = False` and `i = 1`, close
    the detector, warn when the captured `done` is still false, and
    return `detector.result`. -/
def detect_buffer_encoding {σ β ρ : Type} (D : Detector σ β ρ) (minL maxL : Int)
    (s₀ : σ) (buffer : List β) : DetectOutput ρ :=
  let t := detectLoop D minL maxL s₀ false 1 buffer
  { result := D.result (D.close t.1), warned := !t.2.1, fed := t.2.2 }

/-- Detector status after the first `j` lines of the buffer have been fed. -/
def doneAfter {σ β ρ : Type} (D : Detector σ β ρ) (s₀ : σ) (buffer : List β) (j : Nat) : Bool :=
  D.done (feedAll D s₀ (buffer.take j))

/-- The break condition of the detection loop at enumerate index `idx`
    with captured done-status `dn` (for budgets other than read-all). -/
def stopCond (minL maxL : Int) (idx : Nat) (dn : Bool) : Prop :=
  (maxL ≤ (idx : Int) ∧ 0 < maxL) ∨ (minL ≤ (idx : Int) ∧ dn = true)

/-- A concrete detector that never reports done (counts chunks fed). -/
def quietDetector : Detector Nat Unit Nat :=
  { feed := fun s _ => s + 1, done := fun _ => false, close := fun s => s, result := fun s => s }

/-- A concrete detector that reports done once two chunks have been fed. -/
def countDetector : Detector Nat Unit Nat :=
  { feed := fun s _ => s + 1, done := fun s => decide (2 ≤ s), close := fun s => s, result := fun s => s }

/-!
### Agency A: filename-based inference (`imf.WEO.infer_encoding`)

`infer_encoding` works on the stem of the path (directory and extension
removed by `pathlib`, an external concern) and matches the stem against
the regex `WEO(?P<month>\S{3})(?P<year>\d{4}).+?(?:[.].*)?$` anchored at
the start.  The embedding works on the stem as a list of characters and
decomposes the regex positionally: the fixed literal `WEO`, three
non-whitespace month characters, four digit characters, and a tail that
the fragment `.+?(?:[.].*)?$` accepts exactly when it is non-empty
(`.` and `.*` never match a newline; stems with newlines do not arise
for file names and are excluded by the tail test). -/

/-- Python `\d` on the ASCII digits (the only characters the claims use). -/
def isPyDigit (c : Char) : Bool := decide ('0' ≤ c ∧ c ≤ '9')

/-- Numeric value of an ASCII digit, as used by `int()` on the year group. -/
def digitVal (c : Char) : Nat := c.toNat - '0'.toNat

/-- The tail fragment `.+?(?:[.].*)?$` of `WEO.FILENAME_PATTERN`
    (imf.py lines 185-187): at least one character, none of them a
    newline. -/
def tailMatches (rest : List Char) : Bool :=
  !rest.isEmpty && rest.all (fun c => decide (c ≠ '\n'))

/-- Value of the four-digit year group under `int()` (imf.py line 346). -/
def yearOf (y1 y2 y3 y4 : Char) : Nat :=
  digitVal y1 * 1000 + digitVal y2 * 100 + digitVal y3 * 10 + digitVal y4

/-- Embeds the match of `WEO.FILENAME_PATTERN` against a stem
    (imf.py line 338): on success, the three month characters and the
    year converted to an integer (imf.py lines 343-346). -/
def filenameMatch (name : List Char) : Option (List Char × Nat) :=
  match name with
  | 'W' :: 'E' :: 'O' :: m1 :: m2 :: m3 :: y1 :: y2 :: y3 :: y4 :: rest =>
    if (!m1.isWhitespace && !m2.isWhitespace && !m3.isWhitespace)
        && (isPyDigit y1 && isPyDigit y2 && isPyDigit y3 && isPyDigit y4)
        && tailMatches rest then
      some ([m1, m2, m3], yearOf y1 y2 y3 y4)
    else
      none
  | _ => none

/-- Embeds `WEO.MONTH_NUMBERS` (imf.py lines 191-193), built from
    `calendar.month_abbr` under the default C locale: the twelve
    three-letter month abbreviations mapped to 1-12. -/
def monthNumbers : List (List Char × Nat) :=
  [ (['J', 'a', 'n'], 1), (['F', 'e', 'b'], 2), (['M', 'a', 'r'], 3),
    (['A', 'p', 'r'], 4), (['M', 'a', 'y'], 5), (['J', 'u', 'n'], 6),
    (['J', 'u', 'l'], 7), (['A', 'u', 'g'], 8), (['S', 'e', 'p'], 9),
    (['O', 'c', 't'], 10), (['N', 'o', 'v'], 11), (['D', 'e', 'c'], 12) ]

/-- Dictionary lookup `MONTH_NUMBERS[month]` (imf.py line 345). -/
def lookupMonth (m : List Char) : Option Nat :=
  (monthNumbers.find? (fun p => decide (p.1 = m))).map (fun p => p.2)

/-- The three failure modes of `infer_encoding`. -/
inductive InferError where
  /-- The `ValueError` raised at imf.py lines 339-341 when the stem does
      not match the filename pattern. -/
  | patternMismatch
  /-- The `KeyError` escaping from `MONTH_NUMBERS[...]` at imf.py
      line 345 when the month token is not a recognised abbreviation. -/
  | unknownMonth
  /-- The `ValueError` raised at imf.py lines 372-374 when the release
      date is outside every catalogued rule. -/
  | noRuleMatched
deriving DecidableEq, Repr

/-- Embeds `WEO.infer_encoding` (imf.py lines 278-374) on a stem: match
    the pattern, translate the month, then evaluate the rule table in
    source order (April; October; September 2011; otherwise error). -/
def infer_encoding (name : List Char) : Except InferError String :=
  match filenameMatch name with
  | none => .error .patternMismatch
  | some (m, year) =>
    match lookupMonth m with
    | none => .error .unknownMonth
    | some month =>
      if month = 4 then
        if 2022 ≤ year then .ok "utf-16le" else .ok "ISO-8859-1"
      else if month = 10 then
        if year = 2020 then .ok "utf-16le" else .ok "ISO-8859-1"
      else if month = 9 ∧ year = 2011 then .ok "ISO-8859-1"
      else .error .noRuleMatched

/-!
### Agency A: the `BytesIO` construction route of `WEO.__init__`

In route 1b (imf.py lines 233-253) the code forks the buffer with
`itertools.tee`, runs content detection on one copy, and then builds the
decoded line iterator with `map(lambda x: x.decode(self.encoding, buffer))`.
The closing parenthesis of the lambda encloses the intended second
argument of `map`, so CPython receives `map` with a single argument and
raises `TypeError` before any line is decoded; the same slip appears in
the explicit-encoding branch (imf.py lines 250-252).
-/

/-- Models the CPython call `map(f)` with a single argument: it raises
    `TypeError` (map requires at least two arguments) and never produces
    an iterator. -/
def pyMapOneArg (α : Type) : Except PyErr (List α) := .error .typeErrorMapOneArg

/-- Embeds route 1b of `WEO.__init__` (imf.py lines 233-253) for a
    `BytesIO` input.  `detected` stands for the encoding obtained from
    `detect_encoding` on the tee fork; `buffer` is the retained fork.
    On success the route would store the resolved encoding and the
    decoded line iterator. -/
def weoInitBytesRoute (detected : String) (_buffer : List String)
    (encoding : Option String) : Except PyErr (String × List String) :=
  match encoding with
  | none =>
    match pyMapOneArg String with
    | .error e => .error e
    | .ok l => .ok (detected, l)
  | some enc =>
    if enc = "detect_" then
      match pyMapOneArg String with
      | .error e => .error e
      | .ok l => .ok (detected, l)
    else
      match pyMapOneArg String with
      | .error e => .error e
      | .ok l => .ok (enc, l)

/-!
### Handle ownership at teardown

`WEO.__init__` stores an opened file object in `self._stream` only on
the path routes (imf.py lines 261, 271, 276); the buffer routes leave
`_stream` as `None` (line 205).  `WEO.__del__` (imf.py lines 376-379)
closes `self._stream` exactly when it is not `None`, and the finaliser
runs once per object.  `ons.CSV` opens a file itself when given a path
(ons.py line 81) but defines no `__del__`, no `close`, and its
`__exit__` (ons.py lines 155-156) is `pass`: no statement in the class
ever closes a handle.  Handles are modelled by numeric identifiers; a
teardown is modelled by the list of handles it closes.
-/

/-- How `WEO` was constructed (route 1a, route 1b, or route 2). -/
inductive WEOSource where
  | stringBuf
  | bytesBuf
  | pathInput (handle : Nat)
deriving DecidableEq, Repr

/-- The `_stream` attribute after `WEO.__init__`: the handle the object
    opened itself on the path routes, `None` on the buffer routes. -/
def weoStreamAfterInit : WEOSource → Option Nat
  | .stringBuf => none
  | .bytesBuf => none
  | .pathInput h => some h

/-- Embeds `WEO.__del__` (imf.py lines 376-379): close `_stream` when it
    is not `None`. -/
def weoDelCloses : Option Nat → List Nat
  | some h => [h]
  | none => []

/-- How `ons.CSV` was constructed (ons.py lines 77-81). -/
inductive CSVSource where
  | bufferInput
  | pathInput (handle : Nat)
deriving DecidableEq, Repr

/-- Handles closed by `ons.CSV` at teardown: the class defines no
    `__del__` and its `__exit__` is `pass`, so nothing is ever closed,
    whether the handle was opened by the class or supplied by the
    caller. -/
def csvTeardownCloses : CSVSource → List Nat := fun _ => []

/-!
### Concrete fixtures used by witnesses and counterexamples
-/

/-- A header row (first field `CDID`), echoing the test data of
    test_ons.py. -/
def hdrRow : Row := ⟨["CDID", "AB12"], ["\"CDID\",\"AB12\"\n"]⟩

/-- A metadata row (first field `Title`). -/
def titleRow : Row := ⟨["Title", "First"], ["\"Title\",\"First\"\n"]⟩

/-- A data row (first field `1946`). -/
def dataRow : Row := ⟨["1946", "1.0"], ["\"1946\",\"1.0\"\n"]⟩

/-- A blank physical line: the csv reader yields an empty row for it. -/
def blankRow : Row := ⟨[], ["\n"]⟩

/-- A metadata row spanning two physical lines (a quoted field with an
    embedded newline), echoing ons_multiline.csv in test_ons.py. -/
def multiRow : Row := ⟨["PreUnit", "\n£"], ["\"PreUnit\",\"\n", "£\"\n"]⟩

/-- A small well-formed stream: header, metadata, one data row. -/
def sampleRows : List Row := [hdrRow, titleRow, dataRow]

/-- A stream whose metadata row spans two physical lines. -/
def multilineRows : List Row := [hdrRow, multiRow, dataRow]

/-!
## Theorems

Helper lemmas first, then one theorem (plus witness or counterexample)
per claim.
-/

lemma header_not_meta {r : Row} (h : isHeaderRow r = true) : isMetadataRow r = false := by
  have hh : r.fields.head? = some CODE := by
    have := of_decide_eq_true h
    exact this
  simp only [isMetadataRow, hh]
  decide

lemma iterAux_spec (rows : List Row) :
    iterAux rows (allLines rows) =
      match (rows.dropWhile isPreambleRow).head? with
      | some r =>
        match r.fields with
        | [] => Except.error PyErr.indexError
        | _ :: _ =>
          Except.ok (headerLinesSpec rows, metadataLinesSpec rows, dataLinesSpec rows)
      | none =>
        Except.ok (headerLinesSpec rows, metadataLinesSpec rows, dataLinesSpec rows) := by
  induction rows with
  | nil => rfl
  | cons r rs ih =>
    cases hf : r.fields with
    | nil =>
      have hp : isPreambleRow r = false := by
        simp [isPreambleRow, isHeaderRow, isMetadataRow, hf]
      simp [iterAux, hf, allLines, List.dropWhile_cons, hp, headerLinesSpec,
        metadataLinesSpec, dataLinesSpec, List.takeWhile_cons]
    | cons label t =>
      by_cases hc : label = CODE
      · have hh : isHeaderRow r = true := by simp [isHeaderRow, hf, hc]
        have hm : isMetadataRow r = false := header_not_meta hh
        have hp : isPreambleRow r = true := by simp [isPreambleRow, hh]
        have hdrop : (r.lines ++ allLines rs).drop r.lines.length = allLines rs :=
          List.drop_left _ _
        have htake : (r.lines ++ allLines rs).take r.lines.length = r.lines :=
          List.take_left _ _
        simp only [allLines, iterAux, hf, hc, if_pos, hdrop, htake, ih]
        cases hd : (rs.dropWhile isPreambleRow).head? with
        | none =>
          simp [List.dropWhile_cons, hp, hd, headerLinesSpec, metadataLinesSpec,
            dataLinesSpec, List.takeWhile_cons, List.filter_cons, hh, hm, allLines]
        | some r' =>
          cases hf' : r'.fields with
          | nil =>
            simp [List.dropWhile_cons, hp, hd, hf']
          | cons l' t' =>
            simp [List.dropWhile_cons, hp, hd, hf', headerLinesSpec, metadataLinesSpec,
              dataLinesSpec, List.takeWhile_cons, List.filter_cons, hh, hm, allLines]
      · by_cases hmem : label ∈ FIELDS
        · have hh : isHeaderRow r = false := by simp [isHeaderRow, hf, hc]
          have hm : isMetadataRow r = true := by simp [isMetadataRow, hf, hmem]
          have hp : isPreambleRow r = true := by simp [isPreambleRow, hm]
          have hdrop : (r.lines ++ allLines rs).drop r.lines.length = allLines rs :=
            List.drop_left _ _
          have htake : (r.lines ++ allLines rs).take r.lines.length = r.lines :=
            List.take_left _ _
          simp only [allLines, iterAux, hf, hc, hmem, if_pos, if_neg, hdrop, htake, ih]
          cases hd : (rs.dropWhile isPreambleRow).head? with
          | none =>
            simp [List.dropWhile_cons, hp, hd, headerLinesSpec, metadataLinesSpec,
              dataLinesSpec, List.takeWhile_cons, List.filter_cons, hh, hm, allLines]
          | some r' =>
            cases hf' : r'.fields with
            | nil =>
              simp [List.dropWhile_cons, hp, hd, hf']
            | cons l' t' =>
              simp [List.dropWhile_cons, hp, hd, hf', headerLinesSpec, metadataLinesSpec,
                dataLinesSpec, List.takeWhile_cons, List.filter_cons, hh, hm, allLines]
        · have hh : isHeaderRow r = false := by simp [isHeaderRow, hf, hc]
          have hm : isMetadataRow r = false := by simp [isMetadataRow, hf, hmem]
          have hp : isPreambleRow r = false := by simp [isPreambleRow, hh, hm]
          simp [iterAux, hf, hc, hmem, allLines, List.dropWhile_cons, hp, headerLinesSpec,
            metadataLinesSpec, dataLinesSpec, List.takeWhile_cons]

lemma allLines_append (a b : List Row) : allLines (a ++ b) = allLines a ++ allLines b := by
  induction a with
  | nil => rfl
  | cons r rs ih => simp [allLines, ih]

lemma allLines_block {r : Row} {l : List Row} (h : r ∈ l) :
    ∃ u v, allLines l = u ++ (r.lines ++ v) := by
  induction l with
  | nil => cases h
  | cons a l ih =>
    rcases List.mem_cons.mp h with rfl | h
    · exact ⟨[], allLines l, by simp [allLines]⟩
    · obtain ⟨u, v, huv⟩ := ih h
      exact ⟨a.lines ++ u, v, by simp [allLines, huv]⟩

lemma preamble_perm (l : List Row) (hl : ∀ r ∈ l, isPreambleRow r = true) :
    List.Perm (allLines (l.filter isHeaderRow) ++ allLines (l.filter isMetadataRow))
      (allLines l) := by
  induction l with
  | nil => simp [allLines]
  | cons r rs ih =>
    have hr : isPreambleRow r = true := hl r (List.mem_cons_self r rs)
    have hrest : ∀ q ∈ rs, isPreambleRow q = true := fun q hq => hl q (List.mem_cons_of_mem r hq)
    cases hh : isHeaderRow r with
    | true =>
      have hm : isMetadataRow r = false := header_not_meta hh
      simp only [List.filter_cons, hh, hm, allLines, Bool.false_eq_true, not_false_iff,
        ite_true, ite_false]
      rw [List.append_assoc]
      exact List.Perm.append_left r.lines (ih hrest)
    | false =>
      have hm : isMetadataRow r = true := by
        rw [isPreambleRow, hh] at hr
        simpa using hr
      simp only [List.filter_cons, hh, hm, allLines, Bool.false_eq_true, not_false_iff,
        ite_true, ite_false]
      have h1 : List.Perm
          (allLines (rs.filter isHeaderRow) ++ (r.lines ++ allLines (rs.filter isMetadataRow)))
          (r.lines ++ (allLines (rs.filter isHeaderRow) ++ allLines (rs.filter isMetadataRow))) := by
        rw [← List.append_assoc, ← List.append_assoc]
        exact List.Perm.append_right _ List.perm_append_comm
      exact h1.trans (List.Perm.append_left r.lines (ih hrest))

lemma partition_perm (rows : List Row) :
    List.Perm (headerLinesSpec rows ++ (metadataLinesSpec rows ++ dataLinesSpec rows))
      (allLines rows) := by
  have hsplit : rows.takeWhile isPreambleRow ++ rows.dropWhile isPreambleRow = rows :=
    List.takeWhile_append_dropWhile isPreambleRow rows
  have hpre : ∀ r ∈ rows.takeWhile isPreambleRow, isPreambleRow r = true :=
    fun r hr => List.mem_takeWhile_imp hr
  have h1 : List.Perm
      ((headerLinesSpec rows ++ metadataLinesSpec rows) ++ dataLinesSpec rows)
      (allLines (rows.takeWhile isPreambleRow) ++ allLines (rows.dropWhile isPreambleRow)) :=
    List.Perm.append_right _ (preamble_perm _ hpre)
  rw [← List.append_assoc]
  refine h1.trans ?_
  rw [← allLines_append, hsplit]

lemma iterCSV_ok_inv {rows : List Row} {h m d : List String}
    (hok : iterCSV rows = Except.ok (h, m, d)) :
    h = headerLinesSpec rows ∧ m = metadataLinesSpec rows ∧ d = dataLinesSpec rows := by
  have hspec := iterAux_spec rows
  rw [iterCSV] at hok
  rw [hspec] at hok
  cases hd : (rows.dropWhile isPreambleRow).head? with
  | none =>
    simp only [hd, Except.ok.injEq, Prod.mk.injEq] at hok
    exact ⟨hok.1.symm, hok.2.1.symm, hok.2.2.symm⟩
  | some r =>
    cases hf : r.fields with
    | nil =>
      simp [hd, hf] at hok
    | cons label t =>
      simp only [hd, hf, Except.ok.injEq, Prod.mk.injEq] at hok
      exact ⟨hok.1.symm, hok.2.1.symm, hok.2.2.symm⟩

lemma takeWhile_append_all {α : Type} (p : α → Bool) (l₁ l₂ : List α)
    (h : ∀ x ∈ l₁, p x = true) :
    (l₁ ++ l₂).takeWhile p = l₁ ++ l₂.takeWhile p := by
  induction l₁ with
  | nil => rfl
  | cons a l ih =>
    have ha : p a = true := h a (List.mem_cons_self a l)
    simp [List.takeWhile_cons, ha, ih (fun x hx => h x (List.mem_cons_of_mem a hx))]

lemma dropWhile_append_all {α : Type} (p : α → Bool) (l₁ l₂ : List α)
    (h : ∀ x ∈ l₁, p x = true) :
    (l₁ ++ l₂).dropWhile p = l₂.dropWhile p := by
  induction l₁ with
  | nil => rfl
  | cons a l ih =>
    have ha : p a = true := h a (List.mem_cons_self a l)
    simp [List.dropWhile_cons, ha, ih (fun x hx => h x (List.mem_cons_of_mem a hx))]

/-- C3: for every stream the partitioner accepts, partitioning is
    order-preserving and exhaustive.  The primary view is the header
    lines followed by every data line in original order and original
    text; the metadata view is the header lines followed by every
    metadata line in original order; and counting the shared
    (duplicated) header lines once, the two views together are a
    permutation-free account of every physical line of the stream. -/
theorem csv_partition_order_exhaustive (rows : List Row) (h m d : List String)
    (hok : iterCSV rows = Except.ok (h, m, d)) :
    primaryOf (h, m, d) = headerLinesSpec rows ++ dataLinesSpec rows ∧
    metadataOf (h, m, d) = headerLinesSpec rows ++ metadataLinesSpec rows ∧
    List.Perm (headerLinesSpec rows ++ (metadataLinesSpec rows ++ dataLinesSpec rows))
      (allLines rows) := by
  obtain ⟨h1, h2, h3⟩ := iterCSV_ok_inv hok
  subst h1
  subst h2
  subst h3
  exact ⟨rfl, rfl, partition_perm rows⟩

theorem csv_partition_order_exhaustive_witness :
    primaryOf (["\"CDID\",\"AB12\"\n"], ["\"Title\",\"First\"\n"], ["\"1946\",\"1.0\"\n"]) =
      headerLinesSpec sampleRows ++ dataLinesSpec sampleRows ∧
    metadataOf (["\"CDID\",\"AB12\"\n"], ["\"Title\",\"First\"\n"], ["\"1946\",\"1.0\"\n"]) =
      headerLinesSpec sampleRows ++ metadataLinesSpec sampleRows ∧
    List.Perm
      (headerLinesSpec sampleRows ++ (metadataLinesSpec sampleRows ++ dataLinesSpec sampleRows))
      (allLines sampleRows) :=
  csv_partition_order_exhaustive sampleRows _ _ _ (by rfl)

/-- C4: classification is a monotone one-way machine.  Once a logical
    row is reached whose first field is neither the header label nor a
    recognised metadata label, that row and every following physical
    line land in the data stream, the rows after it are never inspected
    (they are universally quantified here, and may even be rows the
    classifier would reject), and no later line is classified as header
    or metadata (the header and metadata components are drawn from the
    preamble alone). -/
theorem csv_monotone_one_way (pre : List Row) (r : Row) (label : String)
    (t : List String) (rest : List Row)
    (hpre : ∀ q ∈ pre, isPreambleRow q = true)
    (hf : r.fields = label :: t) (h1 : label ≠ CODE) (h2 : label ∉ FIELDS) :
    iterCSV (pre ++ r :: rest) =
      Except.ok (allLines (pre.filter isHeaderRow), allLines (pre.filter isMetadataRow),
        r.lines ++ allLines rest) := by
  have hr : isPreambleRow r = false := by
    simp [isPreambleRow, isHeaderRow, isMetadataRow, hf, h1, h2]
  have hdrop : (pre ++ r :: rest).dropWhile isPreambleRow = r :: rest := by
    rw [dropWhile_append_all _ _ _ hpre, List.dropWhile_cons]
    simp [hr]
  have htw : (pre ++ r :: rest).takeWhile isPreambleRow = pre := by
    rw [takeWhile_append_all _ _ _ hpre, List.takeWhile_cons]
    simp [hr]
  have hspec := iterAux_spec (pre ++ r :: rest)
  simp only [iterCSV]
  rw [hspec]
  simp [hdrop, hf, headerLinesSpec, metadataLinesSpec, dataLinesSpec, htw, allLines]

theorem csv_monotone_one_way_witness :
    iterCSV ([hdrRow, titleRow] ++ dataRow :: [blankRow]) =
      Except.ok (allLines ([hdrRow, titleRow].filter isHeaderRow),
        allLines ([hdrRow, titleRow].filter isMetadataRow),
        dataRow.lines ++ allLines [blankRow]) :=
  csv_monotone_one_way [hdrRow, titleRow] dataRow "1946" ["1.0"] [blankRow]
    (by decide) (by decide) (by decide) (by decide)

/-- C7: a logical row spanning several physical lines (a quoted field
    with embedded line breaks) moves as one unit: all of its physical
    lines appear, contiguously and in order, inside the single bucket
    selected by the first field of the row, and are never split across
    buckets. -/
theorem csv_multiline_single_bucket (rows : List Row) (h m d : List String) (r : Row)
    (hok : iterCSV rows = Except.ok (h, m, d))
    (hr : r ∈ rows.takeWhile isPreambleRow) (hml : 2 ≤ r.lines.length) :
    (isHeaderRow r = true → ∃ u v, h = u ++ (r.lines ++ v)) ∧
    (isMetadataRow r = true → ∃ u v, m = u ++ (r.lines ++ v)) := by
  obtain ⟨h1, h2, _⟩ := iterCSV_ok_inv hok
  constructor
  · intro hh
    have hmem : r ∈ (rows.takeWhile isPreambleRow).filter isHeaderRow :=
      List.mem_filter.mpr ⟨hr, hh⟩
    obtain ⟨u, v, huv⟩ := allLines_block hmem
    exact ⟨u, v, by rw [h1, headerLinesSpec, huv]⟩
  · intro hmm
    have hmem : r ∈ (rows.takeWhile isPreambleRow).filter isMetadataRow :=
      List.mem_filter.mpr ⟨hr, hmm⟩
    obtain ⟨u, v, huv⟩ := allLines_block hmem
    exact ⟨u, v, by rw [h2, metadataLinesSpec, huv]⟩

theorem csv_multiline_single_bucket_witness :
    ∃ u v, ["\"PreUnit\",\"\n", "£\"\n"] = u ++ (multiRow.lines ++ v) :=
  (csv_multiline_single_bucket multilineRows
    ["\"CDID\",\"AB12\"\n"] ["\"PreUnit\",\"\n", "£\"\n"] ["\"1946\",\"1.0\"\n"] multiRow
    (by rfl) (by decide) (by decide)).2 (by decide)

/-- C8 (amended): a stream that ends before any data row is partitioned
    without error into a primary view holding exactly the header lines
    and an empty data remainder; read-one calls past the header lines
    return the empty-string sentinel and never raise.  (As frozen, the
    claim said the FIRST read-one call returns the sentinel; on a
    header-only stream the first call returns the header line itself,
    see the counterexample.) -/
theorem csv_no_data_rows (rows : List Row) (hall : ∀ r ∈ rows, isPreambleRow r = true) :
    iterCSV rows = Except.ok (headerLinesSpec rows, metadataLinesSpec rows, []) ∧
    ∀ k, (headerLinesSpec rows).length ≤ k →
      readlineAt (primaryOf (headerLinesSpec rows, metadataLinesSpec rows, [])) k = "" := by
  have hdropnil : rows.dropWhile isPreambleRow = [] :=
    List.dropWhile_eq_nil_iff.mpr hall
  constructor
  · have hspec := iterAux_spec rows
    simp only [iterCSV]
    rw [hspec]
    simp [hdropnil, dataLinesSpec, allLines]
  · intro k hk
    rw [readlineAt, primaryOf]
    have hdk : (headerLinesSpec rows ++ ([] : List String)).drop k = [] := by
      rw [List.append_nil]
      exact List.drop_eq_nil_of_le hk
    rw [hdk]
    rfl

theorem csv_no_data_rows_witness :
    iterCSV [hdrRow, titleRow] =
      Except.ok (headerLinesSpec [hdrRow, titleRow], metadataLinesSpec [hdrRow, titleRow], []) ∧
    readlineAt (primaryOf (headerLinesSpec [hdrRow, titleRow],
      metadataLinesSpec [hdrRow, titleRow], [])) 1 = "" :=
  ⟨(csv_no_data_rows [hdrRow, titleRow] (by decide)).1,
   (csv_no_data_rows [hdrRow, titleRow] (by decide)).2 1 (by decide)⟩

/-- C8 counterexample: on a header-only stream the partition succeeds,
    but the FIRST read-one call on the primary view returns the header
    line, not the empty-string sentinel the claim promises. -/
theorem csv_first_readline_not_empty_cx :
    iterCSV [hdrRow] = Except.ok (["\"CDID\",\"AB12\"\n"], [], []) ∧
    readlineAt (primaryOf (["\"CDID\",\"AB12\"\n"], [], [])) 0 = "\"CDID\",\"AB12\"\n" ∧
    ("\"CDID\",\"AB12\"\n" : String) ≠ "" := by
  exact ⟨by rfl, by rfl, by decide⟩

/-- C10: a blank physical line standing as its own logical row before
    the first data row (the csv reader parses it to an empty field
    list) makes construction fail with `IndexError` from `row[0]`: the
    line is neither classified as data nor skipped. -/
theorem csv_blank_line_index_error (pre rest : List Row) (ls : List String)
    (hpre : ∀ q ∈ pre, isPreambleRow q = true) :
    iterCSV (pre ++ (⟨[], ls⟩ : Row) :: rest) = Except.error PyErr.indexError := by
  have hr : isPreambleRow (⟨[], ls⟩ : Row) = false := by
    simp [isPreambleRow, isHeaderRow, isMetadataRow]
  have hdrop : (pre ++ (⟨[], ls⟩ : Row) :: rest).dropWhile isPreambleRow
      = (⟨[], ls⟩ : Row) :: rest := by
    rw [dropWhile_append_all _ _ _ hpre, List.dropWhile_cons]
    simp [hr]
  have hspec := iterAux_spec (pre ++ (⟨[], ls⟩ : Row) :: rest)
  simp only [iterCSV]
  rw [hspec]
  simp [hdrop]

theorem csv_blank_line_index_error_witness :
    iterCSV ([hdrRow] ++ (⟨[], ["\n"]⟩ : Row) :: []) = Except.error PyErr.indexError :=
  csv_blank_line_index_error [hdrRow] [] ["\n"] (by decide)

lemma detectLoop_master {σ β ρ : Type} (D : Detector σ β ρ) (minL maxL : Int) :
    ∀ (buf : List β) (s : σ) (d : Bool) (i : Nat),
    ∃ n, detectLoop D minL maxL s d i buf
        = (feedAll D s (buf.take n),
           (if n = 0 then d else D.done (feedAll D s (buf.take n))), n)
      ∧ n ≤ buf.length
      ∧ (maxL = -1 → n = buf.length)
      ∧ (maxL ≠ -1 →
          (∀ k, k + 1 < n →
            ¬ stopCond minL maxL (i + k) (D.done (feedAll D s (buf.take (k + 1)))))
        ∧ (n = buf.length ∨
            ∃ k, n = k + 1 ∧
              stopCond minL maxL (i + k) (D.done (feedAll D s (buf.take (k + 1)))))) := by
  intro buf
  induction buf with
  | nil =>
    intro s d i
    refine ⟨0, by simp [detectLoop, feedAll], by simp, by simp, ?_⟩
    intro _
    exact ⟨fun k hk => absurd hk (by omega), Or.inl rfl⟩
  | cons b rest ih =>
    intro s d i
    by_cases hneg : maxL = -1
    · obtain ⟨n, heq, hlen, hall, _⟩ := ih (D.feed s b) (D.done (D.feed s b)) (i + 1)
      refine ⟨n + 1, ?_, ?_, ?_, ?_⟩
      · simp only [detectLoop, if_pos hneg, heq]
        by_cases hn : n = 0 <;> simp [hn, List.take_succ_cons, feedAll]
      · simp only [List.length_cons]
        omega
      · intro h
        have := hall h
        simp only [List.length_cons]
        omega
      · intro h
        exact absurd hneg h
    · by_cases hcap : maxL ≤ (i : Int) ∧ 0 < maxL
      · refine ⟨1, ?_, ?_, ?_, ?_⟩
        · simp only [detectLoop, if_neg hneg, if_pos hcap]
          simp [List.take_succ_cons, feedAll]
        · simp
        · intro h
          exact absurd h hneg
        · intro _
          refine ⟨fun k hk => absurd hk (by omega), Or.inr ⟨0, rfl, Or.inl hcap⟩⟩
      · by_cases hmind : minL ≤ (i : Int) ∧ D.done (D.feed s b) = true
        · refine ⟨1, ?_, ?_, ?_, ?_⟩
          · simp only [detectLoop, if_neg hneg, if_neg hcap, if_pos hmind]
            simp [List.take_succ_cons, feedAll]
          · simp
          · intro h
            exact absurd h hneg
          · intro _
            exact ⟨fun k hk => absurd hk (by omega), Or.inr ⟨0, rfl, Or.inr hmind⟩⟩
        · obtain ⟨n, heq, hlen, hall, hprops⟩ := ih (D.feed s b) (D.done (D.feed s b)) (i + 1)
          refine ⟨n + 1, ?_, ?_, ?_, ?_⟩
          · simp only [detectLoop, if_neg hneg, if_neg hcap, if_neg hmind, heq]
            by_cases hn : n = 0 <;> simp [hn, List.take_succ_cons, feedAll]
          · simp only [List.length_cons]
            omega
          · intro h
            exact absurd h hneg
          · intro hne
            obtain ⟨hmin', hcomp⟩ := hprops hne
            constructor
            · intro k hk
              cases k with
              | zero =>
                intro hstop
                rcases hstop with hc | hmn
                · exact hcap hc
                · exact hmind ⟨hmn.1, hmn.2⟩
              | succ k' =>
                have h5 := hmin' k' (by omega)
                rw [show i + 1 + k' = i + (k' + 1) from by omega] at h5
                exact h5
            · rcases hcomp with hl | ⟨k, hk, hstop⟩
              · exact Or.inl (by simp [List.length_cons, hl])
              · refine Or.inr ⟨k + 1, by omega, ?_⟩
                rw [show i + (k + 1) = i + 1 + k from by omega]
                exact hstop

/-- C5 (amended): the detection loop obeys its budget as implemented.
    With max_lines = -1 every line of the source is fed.  With
    max_lines = 0 the loop stops at the first line j with j at least
    min_lines where the detector reports done, and otherwise feeds
    everything.  With max_lines = N > 0 it feeds at most N lines even if
    the detector is undecided, and a done report never stops it before
    min_lines lines have been fed; but the N cap itself is checked
    before the min_lines condition, so the loop can stop before
    min_lines lines have been fed when N < min_lines (see the
    counterexample). -/
theorem detect_budget_modes {σ β ρ : Type} (D : Detector σ β ρ) (s₀ : σ)
    (buffer : List β) (minL maxL : Int) (n : Nat)
    (hfed : (detect_buffer_encoding D minL maxL s₀ buffer).fed = n) :
    n ≤ buffer.length ∧
    (maxL = -1 → n = buffer.length) ∧
    (maxL = 0 →
      (∀ j, 1 ≤ j → j < n → ¬ (minL ≤ (j : Int) ∧ doneAfter D s₀ buffer j = true)) ∧
      (n = buffer.length ∨ (1 ≤ n ∧ minL ≤ (n : Int) ∧ doneAfter D s₀ buffer n = true))) ∧
    (0 < maxL →
      (n : Int) ≤ maxL ∧
      (∀ j, 1 ≤ j → j < n → ¬ (minL ≤ (j : Int) ∧ doneAfter D s₀ buffer j = true)) ∧
      (n = buffer.length ∨ (n : Int) = maxL ∨
        (1 ≤ n ∧ minL ≤ (n : Int) ∧ doneAfter D s₀ buffer n = true))) := by
  obtain ⟨N, heq, hlen, hall, hprops⟩ := detectLoop_master D minL maxL buffer s₀ false 1
  have hN : n = N := by
    rw [← hfed]
    simp [detect_buffer_encoding, heq]
  subst hN
  refine ⟨hlen, hall, ?_, ?_⟩
  · intro h0
    have hne : maxL ≠ -1 := by omega
    obtain ⟨hmin', hcomp⟩ := hprops hne
    constructor
    · intro j hj1 hjn hcontra
      have h5 := hmin' (j - 1) (by omega)
      rw [show 1 + (j - 1) = j from by omega, show j - 1 + 1 = j from by omega] at h5
      exact h5 (Or.inr ⟨hcontra.1, hcontra.2⟩)
    · rcases hcomp with hl | ⟨k, hk, hstop⟩
      · exact Or.inl hl
      · subst hk
        rcases hstop with hc | hmn
        · exact absurd hc.2 (by omega)
        · refine Or.inr ⟨by omega, ?_, ?_⟩
          · have h6 := hmn.1
            rw [show 1 + k = k + 1 from by omega] at h6
            exact h6
          · exact hmn.2
  · intro hpos
    have hne : maxL ≠ -1 := by omega
    obtain ⟨hmin', hcomp⟩ := hprops hne
    have hcapfree : ∀ j : Nat, 1 ≤ j → j < n → ¬ (maxL ≤ (j : Int)) := by
      intro j hj1 hjN hcontra
      have h5 := hmin' (j - 1) (by omega)
      rw [show 1 + (j - 1) = j from by omega] at h5
      exact h5 (Or.inl ⟨hcontra, hpos⟩)
    have hle : (n : Int) ≤ maxL := by
      by_cases hN1 : n ≤ 1
      · have h7 : (n : Int) ≤ 1 := by exact_mod_cast hN1
        omega
      · have h8 := hcapfree (n - 1) (by omega) (by omega)
        omega
    refine ⟨hle, ?_, ?_⟩
    · intro j hj1 hjn hcontra
      have h5 := hmin' (j - 1) (by omega)
      rw [show 1 + (j - 1) = j from by omega, show j - 1 + 1 = j from by omega] at h5
      exact h5 (Or.inr ⟨hcontra.1, hcontra.2⟩)
    · rcases hcomp with hl | ⟨k, hk, hstop⟩
      · exact Or.inl hl
      · subst hk
        rcases hstop with hc | hmn
        · refine Or.inr (Or.inl ?_)
          have h9 := hc.1
          rw [show 1 + k = k + 1 from by omega] at h9
          omega
        · refine Or.inr (Or.inr ⟨by omega, ?_, hmn.2⟩)
          have h6 := hmn.1
          rw [show 1 + k = k + 1 from by omega] at h6
          exact h6

/-- C5 counterexample: with min_lines = 3 and max_lines = 2 on a
    five-line buffer and an undecided detector, the loop feeds only two
    lines: the max_lines cap stops it before min_lines lines have been
    fed, contradicting the claim that it never stops before min_lines. -/
theorem detect_stops_before_min_cx :
    (detect_buffer_encoding quietDetector 3 2 0 [(), (), (), (), ()]).fed = 2 ∧
    ¬ (3 ≤ (detect_buffer_encoding quietDetector 3 2 0 [(), (), (), (), ()]).fed) ∧
    3 ≤ ([(), (), (), (), ()] : List Unit).length := by
  refine ⟨by decide, by decide, by decide⟩

theorem detect_budget_modes_witness :
    (detect_buffer_encoding quietDetector 1 (-1) 0 [(), (), ()]).fed = 3 ∧
    (3 : Nat) = ([(), (), ()] : List Unit).length :=
  ⟨by decide, (detect_budget_modes quietDetector 0 [(), (), ()] 1 (-1) 3 (by decide)).2.1 rfl⟩

/-- C6: the detection pass returns the best-guess result of the detector
    (computed, after close, from exactly the lines it fed) in every
    case, and raises the non-fatal low-confidence warning if and only if
    the detector had not reached its done state by the time the line
    budget was exhausted. -/
theorem detect_result_and_warning {σ β ρ : Type} (D : Detector σ β ρ) (s₀ : σ)
    (buffer : List β) (minL maxL : Int) (h₀ : D.done s₀ = false) :
    (detect_buffer_encoding D minL maxL s₀ buffer).result
        = D.result (D.close (feedAll D s₀
            (buffer.take (detect_buffer_encoding D minL maxL s₀ buffer).fed)))
    ∧ ((detect_buffer_encoding D minL maxL s₀ buffer).warned = true
        ↔ doneAfter D s₀ buffer (detect_buffer_encoding D minL maxL s₀ buffer).fed = false) := by
  obtain ⟨N, heq, _, _, _⟩ := detectLoop_master D minL maxL buffer s₀ false 1
  constructor
  · simp [detect_buffer_encoding, heq]
  · by_cases hn : N = 0
    · subst hn
      simp [detect_buffer_encoding, heq, doneAfter, feedAll, h₀]
    · simp [detect_buffer_encoding, heq, doneAfter, hn]

theorem detect_result_and_warning_witness :
    (detect_buffer_encoding countDetector 1 0 0 [(), (), (), ()]).result
        = countDetector.result (countDetector.close (feedAll countDetector 0
            (([(), (), (), ()] : List Unit).take
              (detect_buffer_encoding countDetector 1 0 0 [(), (), (), ()]).fed)))
    ∧ ((detect_buffer_encoding countDetector 1 0 0 [(), (), (), ()]).warned = true
        ↔ doneAfter countDetector 0 [(), (), (), ()]
            (detect_buffer_encoding countDetector 1 0 0 [(), (), (), ()]).fed = false) :=
  detect_result_and_warning countDetector 0 [(), (), (), ()] 1 0 (by decide)

lemma filenameMatch_build (m1 m2 m3 y1 y2 y3 y4 c : Char) (cs : List Char)
    (hm1 : m1.isWhitespace = false) (hm2 : m2.isWhitespace = false)
    (hm3 : m3.isWhitespace = false)
    (hy1 : isPyDigit y1 = true) (hy2 : isPyDigit y2 = true)
    (hy3 : isPyDigit y3 = true) (hy4 : isPyDigit y4 = true)
    (hs2 : (c :: cs).all (fun x => decide (x ≠ '\n')) = true) :
    filenameMatch ('W' :: 'E' :: 'O' :: m1 :: m2 :: m3 :: y1 :: y2 :: y3 :: y4 :: c :: cs)
      = some ([m1, m2, m3], yearOf y1 y2 y3 y4) := by
  have hs3 : ¬c = '\n' ∧ ∀ x ∈ cs, ¬x = '\n' := by simpa using hs2
  have hs4 : '\n' ∉ cs := fun hmem => hs3.2 '\n' hmem rfl
  simp [filenameMatch, tailMatches, hm1, hm2, hm3, hy1, hy2, hy3, hy4, hs3.1, hs4]

/-- C1 (amended): for every stem consisting of the literal `WEO`, a
    catalogued three-character month abbreviation, four digits and a
    NON-EMPTY trailing suffix, `infer_encoding` returns exactly the
    literal table value: April gives `utf-16le` from 2022 on and
    `ISO-8859-1` before; October gives `utf-16le` in 2020 and
    `ISO-8859-1` otherwise; September gives `ISO-8859-1` in 2011 and an
    error otherwise; every other catalogued month raises an error rather
    than guessing.  (As frozen, the claim also admitted an EMPTY suffix;
    the regex fragment `.+?` requires at least one character after the
    year, see the counterexample.) -/
theorem infer_encoding_rule_table (m1 m2 m3 y1 y2 y3 y4 : Char) (suffix : List Char)
    (hs1 : suffix ≠ [])
    (hs2 : suffix.all (fun x => decide (x ≠ '\n')) = true)
    (hy1 : isPyDigit y1 = true) (hy2 : isPyDigit y2 = true)
    (hy3 : isPyDigit y3 = true) (hy4 : isPyDigit y4 = true) :
    (([m1, m2, m3] : List Char) = ['A', 'p', 'r'] →
      infer_encoding ('W' :: 'E' :: 'O' :: m1 :: m2 :: m3 :: y1 :: y2 :: y3 :: y4 :: suffix)
        = Except.ok (if 2022 ≤ yearOf y1 y2 y3 y4 then "utf-16le" else "ISO-8859-1")) ∧
    (([m1, m2, m3] : List Char) = ['O', 'c', 't'] →
      infer_encoding ('W' :: 'E' :: 'O' :: m1 :: m2 :: m3 :: y1 :: y2 :: y3 :: y4 :: suffix)
        = Except.ok (if yearOf y1 y2 y3 y4 = 2020 then "utf-16le" else "ISO-8859-1")) ∧
    (([m1, m2, m3] : List Char) = ['S', 'e', 'p'] →
      infer_encoding ('W' :: 'E' :: 'O' :: m1 :: m2 :: m3 :: y1 :: y2 :: y3 :: y4 :: suffix)
        = (if yearOf y1 y2 y3 y4 = 2011 then Except.ok "ISO-8859-1"
           else Except.error InferError.noRuleMatched)) ∧
    (∀ mon : Nat, (([m1, m2, m3], mon) ∈ monthNumbers) → mon ≠ 4 → mon ≠ 10 → mon ≠ 9 →
      infer_encoding ('W' :: 'E' :: 'O' :: m1 :: m2 :: m3 :: y1 :: y2 :: y3 :: y4 :: suffix)
        = Except.error InferError.noRuleMatched) := by
  obtain ⟨c, cs, rfl⟩ : ∃ c cs, suffix = c :: cs := by
    cases suffix with
    | nil => exact absurd rfl hs1
    | cons c cs => exact ⟨c, cs, rfl⟩
  refine ⟨?_, ?_, ?_, ?_⟩
  · intro hm
    simp only [List.cons.injEq, and_true] at hm
    obtain ⟨rfl, rfl, rfl⟩ := hm
    rw [infer_encoding, filenameMatch_build _ _ _ _ _ _ _ _ _ (by decide) (by decide)
      (by decide) hy1 hy2 hy3 hy4 hs2]
    simp [lookupMonth, monthNumbers]
    try (split <;> rfl)
  · intro hm
    simp only [List.cons.injEq, and_true] at hm
    obtain ⟨rfl, rfl, rfl⟩ := hm
    rw [infer_encoding, filenameMatch_build _ _ _ _ _ _ _ _ _ (by decide) (by decide)
      (by decide) hy1 hy2 hy3 hy4 hs2]
    simp [lookupMonth, monthNumbers]
    try (split <;> rfl)
  · intro hm
    simp only [List.cons.injEq, and_true] at hm
    obtain ⟨rfl, rfl, rfl⟩ := hm
    rw [infer_encoding, filenameMatch_build _ _ _ _ _ _ _ _ _ (by decide) (by decide)
      (by decide) hy1 hy2 hy3 hy4 hs2]
    simp [lookupMonth, monthNumbers]
  · intro mon hmem h4 h10 h9
    simp only [monthNumbers, List.mem_cons, List.not_mem_nil, or_false, Prod.mk.injEq,
      List.cons.injEq, and_true] at hmem
    rcases hmem with ⟨⟨rfl, rfl, rfl⟩, rfl⟩ | ⟨⟨rfl, rfl, rfl⟩, rfl⟩ | ⟨⟨rfl, rfl, rfl⟩, rfl⟩ |
      ⟨⟨rfl, rfl, rfl⟩, rfl⟩ | ⟨⟨rfl, rfl, rfl⟩, rfl⟩ | ⟨⟨rfl, rfl, rfl⟩, rfl⟩ |
      ⟨⟨rfl, rfl, rfl⟩, rfl⟩ | ⟨⟨rfl, rfl, rfl⟩, rfl⟩ | ⟨⟨rfl, rfl, rfl⟩, rfl⟩ |
      ⟨⟨rfl, rfl, rfl⟩, rfl⟩ | ⟨⟨rfl, rfl, rfl⟩, rfl⟩ | ⟨⟨rfl, rfl, rfl⟩, rfl⟩ <;>
      first
      | exact absurd rfl h4
      | exact absurd rfl h10
      | exact absurd rfl h9
      | (rw [infer_encoding, filenameMatch_build _ _ _ _ _ _ _ _ _ (by decide) (by decide)
          (by decide) hy1 hy2 hy3 hy4 hs2]
         simp [lookupMonth, monthNumbers])

theorem infer_encoding_rule_table_witness :
    infer_encoding ['W', 'E', 'O', 'A', 'p', 'r', '2', '0', '2', '4', 'a', 'l', 'l']
      = Except.ok "utf-16le" := by
  have h := (infer_encoding_rule_table 'A' 'p' 'r' '2' '0' '2' '4' ['a', 'l', 'l']
    (by decide) (by decide) (by decide) (by decide) (by decide) (by decide)).1 rfl
  rw [if_pos (by decide : 2022 ≤ yearOf '2' '0' '2' '4')] at h
  exact h

/-- C1 counterexample: the stem `WEOApr2024` (April 2024, an empty
    trailing suffix) is a catalogued date, yet `infer_encoding` raises a
    pattern-mismatch error instead of returning `utf-16le`: the regex
    fragment `.+?` demands at least one character after the year. -/
theorem infer_encoding_empty_tail_cx :
    infer_encoding ['W', 'E', 'O', 'A', 'p', 'r', '2', '0', '2', '4']
      = Except.error InferError.patternMismatch := by
  rfl

/-- C2 (code evaluated at the failing input): for every buffer and every
    encoding argument, the `BytesIO` construction route raises
    `TypeError` from the one-argument `map` call instead of producing
    the decoded line iterator. -/
theorem weo_bytes_route_raises (detected : String) (buffer : List String)
    (encoding : Option String) :
    weoInitBytesRoute detected buffer encoding = Except.error PyErr.typeErrorMapOneArg := by
  cases encoding with
  | none => rfl
  | some enc =>
    by_cases h : enc = "detect_" <;> simp [weoInitBytesRoute, pyMapOneArg, h]

/-- C9 (amended): the `WEO` reader closes, exactly once at teardown, the
    handle it opened itself when constructed from a path, and never
    closes caller-supplied buffers; the `CSV` reader never closes any
    handle at teardown, not even one it opened itself from a path (see
    the counterexample). -/
theorem teardown_ownership (h : Nat) :
    weoDelCloses (weoStreamAfterInit (WEOSource.pathInput h)) = [h] ∧
    weoDelCloses (weoStreamAfterInit WEOSource.stringBuf) = [] ∧
    weoDelCloses (weoStreamAfterInit WEOSource.bytesBuf) = [] ∧
    (∀ c : CSVSource, csvTeardownCloses c = []) :=
  ⟨rfl, rfl, rfl, fun _ => rfl⟩

/-- C9 counterexample: a `CSV` reader that opened handle 0 itself closes
    nothing at teardown, not the exactly-one close the claim requires. -/
theorem csv_never_closes_owned_cx :
    csvTeardownCloses (CSVSource.pathInput 0) = [] ∧ (([] : List Nat) ≠ [0]) :=
  ⟨rfl, by decide⟩
